import Mathlib

/-!
Verification of the merge-and-reconciliation engine of the Kafka→Algolia
ingestion service (`kafka_consumer.py`, `parsers/kafka_parser.py`).

Records are JSON-like Python dicts: ordered association lists from string
field names to JSON values.  Python `d[k] = v` replaces the value in place
when the key exists and appends otherwise; `d.get(k)` returns `None` when
the key is absent, and JSON `null` is loaded as the same `None`, so a
missing field and an explicit null collapse to the same value.
-/

set_option autoImplicit false

namespace KafkaAlgolia

mutual

/-- JSON-like value, as produced by `json.load`: null, booleans, numbers,
strings, nested mappings and sequences.  Nested mappings and sequences are
given by the mutually defined `JFields` and `JList`. -/
inductive JValue where
  | null
  | bool (b : Bool)
  | num (n : Int)
  | str (s : String)
  | obj (fields : JFields)
  | arr (elems : JList)

inductive JFields where
  | fnil
  | fcons (k : String) (v : JValue) (rest : JFields)

inductive JList where
  | lnil
  | lcons (v : JValue) (rest : JList)

end

deriving instance DecidableEq for JValue
deriving instance DecidableEq for JFields
deriving instance DecidableEq for JList

/-- A product record: an ordered Python dict from field name to value. -/
abbrev Record : Type := List (String × JValue)

/-- Python `k in d` / `d[k]` lookup: the value stored at key `k`. -/
def dictGet? : Record → String → Option JValue
  | [], _ => none
  | (k', v) :: rest, k => if k = k' then some v else dictGet? rest k

/-- Python `k in d`. -/
def hasKey (r : Record) (k : String) : Bool :=
  (dictGet? r k).isSome

/-- Python `d[k] = v`: replace in place if present, append otherwise. -/
def dictSet : Record → String → JValue → Record
  | [], k, v => [(k, v)]
  | (k', v') :: rest, k, v =>
      if k = k' then (k', v) :: rest else (k', v') :: dictSet rest k v

/-- Python `d.get(k)`: `None` when absent; note an explicit JSON null is
also `None`, so absent and null collapse to `JValue.null`. -/
def pyGet (r : Record) (k : String) : JValue :=
  (dictGet? r k).getD .null

/-- One iteration of the enrichment loop of `_upload_batch`
(`kafka_consumer.py` lines 250-254):
`if field not in merged or merged[field] is None: merged[field] = kafka_value`. -/
def mergeStep (m : Record) (kv : String × JValue) : Record :=
  if dictGet? m kv.1 = none ∨ dictGet? m kv.1 = some .null
  then dictSet m kv.1 kv.2
  else m

/-- The merge of one incoming Kafka record into one existing Algolia
record (`kafka_consumer.py` lines 246-254): start from a copy of the
existing record and fold the enrichment step over the incoming fields. -/
def mergeRecord (existing incoming : Record) : Record :=
  incoming.foldl mergeStep existing

/-- The existing-record set fetched from Algolia: a Python dict keyed by
each record's `objectID` value. -/
abbrev ERS : Type := List (JValue × Record)

/-- Dict lookup on the existing-record set. -/
def ersGet? : ERS → JValue → Option Record
  | [], _ => none
  | (k', r) :: rest, k => if k = k' then some r else ersGet? rest k

/-- Dict assignment on the existing-record set. -/
def ersSet : ERS → JValue → Record → ERS
  | [], k, r => [(k, r)]
  | (k', r') :: rest, k, r =>
      if k = k' then (k', r) :: rest else (k', r') :: ersSet rest k r

/-- Keys of the existing-record set. -/
def ersKeys (e : ERS) : List JValue :=
  e.map Prod.fst

/-- The body of the per-record branch of the merge loop
(`kafka_consumer.py` lines 240-265): `object_id = kafka_product.get('objectID')`;
merge against the stored record when `object_id in existing_records`,
otherwise pass the incoming record through unchanged. -/
def mergeOne (existing : ERS) (p : Record) : Record :=
  match ersGet? existing (pyGet p "objectID") with
  | some e => mergeRecord e p
  | none => p

/-- The whole merge loop: one output record per incoming record, in batch
order (`merged_products`). -/
def mergeBatch (existing : ERS) (products : List Record) : List Record :=
  products.map (mergeOne existing)

/-- One step of building `existing_records` from a `get_objects` result
(`kafka_consumer.py` lines 228-230):
`if record and 'objectID' in record: existing_records[record['objectID']] = record`.
(`if record` is Python truthiness: skips `None`/empty entries.) -/
def insRec (acc : ERS) (record : Record) : ERS :=
  if record ≠ [] ∧ hasKey record "objectID" = true
  then ersSet acc (pyGet record "objectID") record
  else acc

/-- Construction of `existing_records` from the Algolia `get_objects`
results: fold `insRec` over the result list, starting from `{}`. -/
def buildExisting (results : List Record) : ERS :=
  results.foldl insRec []

/-- The run statistics counters (`self.stats` in `KafkaToAlgolia.__init__`). -/
structure Stats where
  messagesProcessed : Nat
  productsUpdated : Nat
  errors : Nat
  deriving DecidableEq, Repr

/-- Outcome of the Algolia `get_objects` call: either the list of results
(`None` / missing entries already dropped by the `if record` truthiness
guard would be modelled as absent records, so we keep the raw record list),
or an exception. -/
inductive LookupResult where
  | ok (results : List Record)
  | err
  deriving DecidableEq

/-- Outcome of the Algolia write (`save_objects` followed by `wait_task`):
success, or an exception raised by either call. -/
inductive WriteResult where
  | ok
  | err
  deriving DecidableEq

/-- The existing-record set `_upload_batch` ends up with after the inner
`try`: the dict built from the results on success, and the empty dict when
`get_objects` raised (the `except` branch logs a warning and leaves
`existing_records = {}`). -/
def existingOf : LookupResult → ERS
  | .ok results => buildExisting results
  | .err => []

/-- Observable outcome of one `_upload_batch` call: whether `get_objects`
was invoked and with which identifier list, whether `save_objects` was
invoked and with which record list, and the statistics afterwards. -/
structure UploadOutcome where
  lookupCalled : Bool
  lookupIds : List JValue
  writerCalled : Bool
  writerInput : List Record
  stats : Stats
  deriving DecidableEq

/-- The body of `KafkaToAlgolia._upload_batch` (`kafka_consumer.py` lines 194-287):
empty batch returns immediately; `object_ids` is the comprehension
`[p['objectID'] for p in products if 'objectID' in p]` and an empty id
list skips the batch; the existing set is fetched (empty on lookup
failure); the merge loop produces `merged_products`; a successful write
adds `len(merged_products)` to `products_updated`, and an exception from
`save_objects`/`wait_task` is caught by the outer `except`, which adds one
to `errors` and returns normally. -/
def uploadBatch (lookup : LookupResult) (write : WriteResult) (stats : Stats)
    (products : List Record) : UploadOutcome :=
  if products = [] then ⟨false, [], false, [], stats⟩
  else
    let objectIds := (products.filter fun p => hasKey p "objectID").map fun p => pyGet p "objectID"
    if objectIds = [] then ⟨false, [], false, [], stats⟩
    else
      let merged := mergeBatch (existingOf lookup) products
      if merged = [] then ⟨true, objectIds, false, [], stats⟩
      else
        match write with
        | .ok => ⟨true, objectIds, true, merged,
            { stats with productsUpdated := stats.productsUpdated + merged.length }⟩
        | .err => ⟨true, objectIds, true, merged,
            { stats with errors := stats.errors + 1 }⟩

/-- One batch of a run together with the behaviour of the two external
collaborators while it is processed. -/
structure BatchInput where
  products : List Record
  lookup : LookupResult
  write : WriteResult

/-- Sequential processing of a list of batches: each batch goes through
`_upload_batch` and the run carries the updated statistics to the next
batch (no exception ever escapes `_upload_batch`, so the run never
aborts). -/
def runBatches (batches : List BatchInput) (stats : Stats) : Stats :=
  batches.foldl (fun s b => (uploadBatch b.lookup b.write s b.products).stats) stats

/-- The `parse_kafka_messages` loop (`kafka_parser.py` lines 19-27), with the
wall-clock `datetime.utcnow().isoformat()` abstracted as a function `ts`
of the message position: messages with an `objectID` key get a
`_kafka_processed_at` field added and are stored in the dict under
`message['objectID']`; messages without the key are skipped. -/
def parseKafkaAux (ts : Nat → String) : Nat → List Record → ERS → ERS
  | _, [], acc => acc
  | i, m :: rest, acc =>
      if hasKey m "objectID" = true
      then parseKafkaAux ts (i + 1) rest
        (ersSet acc (pyGet m "objectID") (dictSet m "_kafka_processed_at" (.str (ts i))))
      else parseKafkaAux ts (i + 1) rest acc

/-- Whole-file parse `parse_kafka_messages`: fold the loop above over the message list,
starting from an empty dict. -/
def parseKafkaMessages (ts : Nat → String) (messages : List Record) : ERS :=
  parseKafkaAux ts 0 messages []

/-! ### Dictionary lemmas -/

theorem dictGet_dictSet_self (m : Record) (k : String) (v : JValue) :
    dictGet? (dictSet m k v) k = some v := by
  induction m with
  | nil => simp [dictSet, dictGet?]
  | cons hd tl ih =>
      by_cases h : k = hd.1
      · simp [dictSet, dictGet?, h]
      · simpa [dictSet, dictGet?, h] using ih

theorem dictGet_dictSet_ne (m : Record) (k k' : String) (v : JValue) (h : k' ≠ k) :
    dictGet? (dictSet m k v) k' = dictGet? m k' := by
  induction m with
  | nil => simp [dictSet, dictGet?, h]
  | cons hd tl ih =>
      by_cases hk : k = hd.1
      · subst hk
        simp [dictSet, dictGet?, h]
      · by_cases hk' : k' = hd.1
        · simp [dictSet, dictGet?, hk, hk']
        · simpa [dictSet, dictGet?, hk, hk'] using ih

theorem dictSet_eq_of_get (m : Record) (k : String) (v : JValue)
    (h : dictGet? m k = some v) : dictSet m k v = m := by
  induction m with
  | nil => simp [dictGet?] at h
  | cons hd tl ih =>
      obtain ⟨k1, v1⟩ := hd
      by_cases hk : k = k1
      · subst hk
        simp [dictGet?] at h
        simp [dictSet, h]
      · simp [dictGet?, hk] at h
        simp [dictSet, hk, ih h]

theorem dictGet_of_mem (m : Record) (k : String) (v : JValue)
    (hnd : (m.map Prod.fst).Nodup) (hm : (k, v) ∈ m) : dictGet? m k = some v := by
  induction m with
  | nil => cases hm
  | cons hd tl ih =>
      obtain ⟨k1, v1⟩ := hd
      rcases List.mem_cons.mp hm with h | h
      · cases h
        simp [dictGet?]
      · have hk : k ≠ k1 := by
          intro hkk
          have hmem : k1 ∈ tl.map Prod.fst := List.mem_map.mpr ⟨(k, v), h, by rw [hkk]⟩
          exact (List.nodup_cons.mp hnd).1 hmem
        simpa [dictGet?, hk] using ih (List.nodup_cons.mp hnd).2 h

theorem hasKey_ne_nil (p : Record) (k : String) (h : hasKey p k = true) : p ≠ [] := by
  intro hnil
  subst hnil
  simp [hasKey, dictGet?] at h

/-! ### ERS dictionary lemmas -/

theorem ersGet_ersSet_self (e : ERS) (k : JValue) (r : Record) :
    ersGet? (ersSet e k r) k = some r := by
  induction e with
  | nil => simp [ersSet, ersGet?]
  | cons hd tl ih =>
      by_cases h : k = hd.1
      · simp [ersSet, ersGet?, h]
      · simpa [ersSet, ersGet?, h] using ih

theorem ersGet_ersSet_ne (e : ERS) (k k' : JValue) (r : Record) (h : k' ≠ k) :
    ersGet? (ersSet e k r) k' = ersGet? e k' := by
  induction e with
  | nil => simp [ersSet, ersGet?, h]
  | cons hd tl ih =>
      by_cases hk : k = hd.1
      · subst hk
        simp [ersSet, ersGet?, h]
      · by_cases hk' : k' = hd.1
        · simp [ersSet, ersGet?, hk, hk']
        · simpa [ersSet, ersGet?, hk, hk'] using ih

theorem mem_ersSet (e : ERS) (k : JValue) (r : Record) (x : JValue × Record)
    (hx : x ∈ ersSet e k r) : x ∈ e ∨ x = (k, r) := by
  induction e with
  | nil =>
      simp [ersSet] at hx
      exact Or.inr hx
  | cons hd tl ih =>
      obtain ⟨k1, r1⟩ := hd
      by_cases h : k = k1
      · simp only [ersSet, if_pos h] at hx
        rcases List.mem_cons.mp hx with h1 | h1
        · subst h
          exact Or.inr h1
        · exact Or.inl (List.mem_cons_of_mem _ h1)
      · simp only [ersSet, if_neg h] at hx
        rcases List.mem_cons.mp hx with h1 | h1
        · exact Or.inl (by rw [h1]; exact List.mem_cons_self _ _)
        · rcases ih h1 with h2 | h2
          · exact Or.inl (List.mem_cons_of_mem _ h2)
          · exact Or.inr h2

theorem ersKeys_cons (x : JValue × Record) (l : ERS) :
    ersKeys (x :: l) = x.1 :: ersKeys l := rfl

theorem ersKeys_ersSet_of_mem (e : ERS) (k : JValue) (r : Record)
    (hmem : k ∈ ersKeys e) : ersKeys (ersSet e k r) = ersKeys e := by
  induction e with
  | nil => simp [ersKeys] at hmem
  | cons hd tl ih =>
      obtain ⟨k1, r1⟩ := hd
      by_cases h : k = k1
      · have e1 : ersSet ((k1, r1) :: tl) k r = (k1, r) :: tl := by
          simp [ersSet, h]
        rw [e1, ersKeys_cons, ersKeys_cons]
      · have e1 : ersSet ((k1, r1) :: tl) k r = (k1, r1) :: ersSet tl k r := by
          simp [ersSet, h]
        rw [ersKeys_cons] at hmem
        rcases List.mem_cons.mp hmem with h1 | h1
        · exact absurd h1 h
        · rw [e1, ersKeys_cons, ersKeys_cons, ih h1]

theorem ersKeys_ersSet_of_not_mem (e : ERS) (k : JValue) (r : Record)
    (hmem : k ∉ ersKeys e) : ersKeys (ersSet e k r) = ersKeys e ++ [k] := by
  induction e with
  | nil => simp [ersSet, ersKeys]
  | cons hd tl ih =>
      obtain ⟨k1, r1⟩ := hd
      rw [ersKeys_cons] at hmem
      have h : k ≠ k1 := fun hh => hmem (List.mem_cons.mpr (Or.inl hh))
      have hmem' : k ∉ ersKeys tl := fun hh => hmem (List.mem_cons.mpr (Or.inr hh))
      have e1 : ersSet ((k1, r1) :: tl) k r = (k1, r1) :: ersSet tl k r := by
        simp [ersSet, h]
      rw [e1, ersKeys_cons, ersKeys_cons, ih hmem']
      rfl

theorem nodup_ersKeys_ersSet (e : ERS) (k : JValue) (r : Record)
    (h : (ersKeys e).Nodup) : (ersKeys (ersSet e k r)).Nodup := by
  by_cases hmem : k ∈ ersKeys e
  · rw [ersKeys_ersSet_of_mem e k r hmem]
    exact h
  · rw [ersKeys_ersSet_of_not_mem e k r hmem]
    simpa [List.nodup_append, hmem] using h

/-! ### Merge-engine lemmas -/

theorem dictGet_eq_none_of_not_mem (m : Record) (k : String)
    (h : k ∉ m.map Prod.fst) : dictGet? m k = none := by
  induction m with
  | nil => rfl
  | cons hd tl ih =>
      obtain ⟨k1, v1⟩ := hd
      have h1 : k ≠ k1 := fun hh => h (by simp [hh])
      have h2 : k ∉ tl.map Prod.fst := fun hh => h (by simp [hh])
      simp [dictGet?, h1, ih h2]

theorem mergeStep_def (m : Record) (f : String) (u : JValue) :
    mergeStep m (f, u) =
      if dictGet? m f = none ∨ dictGet? m f = some .null
      then dictSet m f u
      else m := rfl

/-- Fields of the existing record that are present with a non-null value
survive the whole enrichment fold untouched. -/
theorem foldl_mergeStep_preserves (inc : List (String × JValue)) (m : Record)
    (k : String) (v : JValue) (hv : dictGet? m k = some v) (hnn : v ≠ .null) :
    dictGet? (List.foldl mergeStep m inc) k = some v := by
  induction inc generalizing m with
  | nil => exact hv
  | cons hd tl ih =>
      obtain ⟨f, u⟩ := hd
      rw [List.foldl_cons]
      apply ih
      by_cases hcond : dictGet? m f = none ∨ dictGet? m f = some .null
      · by_cases hfk : k = f
        · subst hfk
          rcases hcond with h1 | h1 <;> rw [hv] at h1
          · cases h1
          · exact absurd (Option.some.inj h1) hnn
        · rw [mergeStep_def, if_pos hcond, dictGet_dictSet_ne m f k u hfk]
          exact hv
      · rw [mergeStep_def, if_neg hcond]
        exact hv

/-- Choice on optional values: the first operand when present, the
second otherwise. -/
def orElse? (a b : Option JValue) : Option JValue :=
  match a with
  | some v => some v
  | none => b

/-- Full characterization of a merged record's fields (requires the
incoming record's keys to be duplicate-free, which holds of every Python
dict): a field that is present and non-null in the existing record keeps
its existing value; otherwise the incoming value is taken when present. -/
theorem dictGet_mergeRecord (inc : List (String × JValue)) (e : Record) (k : String)
    (hnd : (inc.map Prod.fst).Nodup) :
    dictGet? (mergeRecord e inc) k =
      if dictGet? e k = none ∨ dictGet? e k = some .null
      then orElse? (dictGet? inc k) (dictGet? e k)
      else dictGet? e k := by
  induction inc generalizing e with
  | nil =>
      by_cases hcond : dictGet? e k = none ∨ dictGet? e k = some .null
      · rcases hcond with h1 | h1 <;>
          simp [mergeRecord, orElse?, dictGet?, h1]
      · simp [mergeRecord, dictGet?, hcond]
  | cons hd tl ih =>
      obtain ⟨f, u⟩ := hd
      have hnd' : (tl.map Prod.fst).Nodup := (List.nodup_cons.mp (by simpa using hnd)).2
      have hfmem : f ∉ tl.map Prod.fst := (List.nodup_cons.mp (by simpa using hnd)).1
      have hme : mergeRecord e ((f, u) :: tl) = mergeRecord (mergeStep e (f, u)) tl := rfl
      rw [hme, ih (mergeStep e (f, u)) hnd']
      by_cases hfk : k = f
      · subst hfk
        have htl : dictGet? tl k = none := dictGet_eq_none_of_not_mem tl k hfmem
        by_cases hcond : dictGet? e k = none ∨ dictGet? e k = some .null
        · rw [mergeStep_def, if_pos hcond, dictGet_dictSet_self]
          by_cases hu : u = .null
          · subst hu
            simp [dictGet?, orElse?, htl, hcond]
          · simp [dictGet?, orElse?, htl, hcond, hu]
        · rw [mergeStep_def, if_neg hcond]
          simp [dictGet?, hcond]
      · have hget : dictGet? (mergeStep e (f, u)) k = dictGet? e k := by
          by_cases hcond : dictGet? e f = none ∨ dictGet? e f = some .null
          · rw [mergeStep_def, if_pos hcond]
            exact dictGet_dictSet_ne e f k u hfk
          · rw [mergeStep_def, if_neg hcond]
        rw [hget]
        simp [dictGet?, hfk]

/-- If every incoming field is already stored with exactly the incoming
value, or stored with some non-null value, the enrichment fold leaves the
record untouched (as a list, positions included). -/
theorem foldl_mergeStep_fixed (inc : List (String × JValue)) (m : Record)
    (h : ∀ kv ∈ inc, dictGet? m kv.1 = some kv.2 ∨
      (dictGet? m kv.1 ≠ none ∧ dictGet? m kv.1 ≠ some .null)) :
    List.foldl mergeStep m inc = m := by
  induction inc with
  | nil => rfl
  | cons hd tl ih =>
      obtain ⟨f, u⟩ := hd
      have hstep : mergeStep m (f, u) = m := by
        rcases h (f, u) (List.mem_cons_self _ _) with h1 | h1
        · by_cases hcond : dictGet? m f = none ∨ dictGet? m f = some .null
          · have hu : u = .null := by
              rcases hcond with h2 | h2
              · rw [h1] at h2
                cases h2
              · rw [h1] at h2
                exact (Option.some.inj h2)
            rw [mergeStep_def, if_pos hcond]
            exact dictSet_eq_of_get m f u (by rw [h1])
          · rw [mergeStep_def, if_neg hcond]
        · have hcond : ¬(dictGet? m f = none ∨ dictGet? m f = some .null) := by
            intro h2
            rcases h2 with h2 | h2
            · exact h1.1 h2
            · exact h1.2 h2
          rw [mergeStep_def, if_neg hcond]
      rw [List.foldl_cons, hstep]
      exact ih fun kv hkv => h kv (List.mem_cons_of_mem _ hkv)

/-- Merging a record into itself changes nothing. -/
theorem mergeRecord_self (p : Record) (hnd : (p.map Prod.fst).Nodup) :
    mergeRecord p p = p := by
  apply foldl_mergeStep_fixed
  intro kv hkv
  exact Or.inl (dictGet_of_mem p kv.1 kv.2 hnd hkv)

/-- Merging the same incoming record a second time into its own merge
output changes nothing. -/
theorem mergeRecord_idem (e p : Record) (hnd : (p.map Prod.fst).Nodup) :
    mergeRecord (mergeRecord e p) p = mergeRecord e p := by
  apply foldl_mergeStep_fixed
  intro kv hkv
  have hp : dictGet? p kv.1 = some kv.2 := dictGet_of_mem p kv.1 kv.2 hnd hkv
  rw [dictGet_mergeRecord p e kv.1 hnd]
  by_cases hcond : dictGet? e kv.1 = none ∨ dictGet? e kv.1 = some .null
  · rw [if_pos hcond, hp]
    exact Or.inl rfl
  · rw [if_neg hcond]
    exact Or.inr (not_or.mp hcond)

/-- A key present in the existing record is present in the merged record. -/
theorem hasKey_mergeRecord (e p : Record) (k : String)
    (hnd : (p.map Prod.fst).Nodup) (h : hasKey e k = true) :
    hasKey (mergeRecord e p) k = true := by
  unfold hasKey at h ⊢
  rw [dictGet_mergeRecord p e k hnd]
  by_cases hcond : dictGet? e k = none ∨ dictGet? e k = some .null
  · rw [if_pos hcond]
    cases hp : dictGet? p k with
    | none => simpa [orElse?, hp] using h
    | some v => simp [orElse?, hp]
  · rw [if_neg hcond]
    exact h

/-- The `objectID` seen through `.get` (null standing for both absent and
null) is unchanged by the merge when existing and incoming agree on it. -/
theorem pyGet_mergeRecord (e p : Record) (k : String) (x : JValue)
    (hnd : (p.map Prod.fst).Nodup) (he : pyGet e k = x) (hp : pyGet p k = x) :
    pyGet (mergeRecord e p) k = x := by
  unfold pyGet at he hp ⊢
  rw [dictGet_mergeRecord p e k hnd]
  by_cases hcond : dictGet? e k = none ∨ dictGet? e k = some .null
  · have hx : x = .null := by
      rcases hcond with h1 | h1 <;> rw [h1] at he <;> simpa using he.symm
    rw [if_pos hcond]
    cases hpk : dictGet? p k with
    | none =>
        rcases hcond with h1 | h1 <;> simp [orElse?, h1, hx]
    | some v =>
        rw [hpk] at hp
        simp [orElse?, hp, hx]
  · rw [if_neg hcond]
    exact he

/-! ### Batch-level lemmas -/

theorem mergeOne_of_miss (existing : ERS) (p : Record)
    (h : ersGet? existing (pyGet p "objectID") = none) : mergeOne existing p = p := by
  unfold mergeOne
  rw [h]

theorem mergeOne_of_hit (existing : ERS) (p e : Record)
    (h : ersGet? existing (pyGet p "objectID") = some e) :
    mergeOne existing p = mergeRecord e p := by
  unfold mergeOne
  rw [h]

theorem mergeBatch_nil_existing (products : List Record) :
    mergeBatch [] products = products := by
  unfold mergeBatch
  have h : ∀ p ∈ products, mergeOne [] p = p := by
    intro p _
    exact mergeOne_of_miss [] p rfl
  calc products.map (mergeOne [])
      = products.map id := List.map_congr_left h
    _ = products := List.map_id products

theorem mergeBatch_length (existing : ERS) (products : List Record) :
    (mergeBatch existing products).length = products.length := by
  unfold mergeBatch
  exact List.length_map products (mergeOne existing)

/-! ### Lemmas about building the existing-record dict -/

theorem insRec_def (acc : ERS) (record : Record) :
    insRec acc record =
      if record ≠ [] ∧ hasKey record "objectID" = true
      then ersSet acc (pyGet record "objectID") record
      else acc := rfl

/-- Folding `insRec` over records none of which is stored under key `k`
leaves the lookup at `k` unchanged. -/
theorem ersGet_foldl_insRec_of_none (O : List Record) (E0 : ERS) (k : JValue)
    (h : ∀ o ∈ O, o ≠ [] → hasKey o "objectID" = true → pyGet o "objectID" ≠ k) :
    ersGet? (O.foldl insRec E0) k = ersGet? E0 k := by
  induction O generalizing E0 with
  | nil => rfl
  | cons o tl ih =>
      rw [List.foldl_cons]
      rw [ih (insRec E0 o) fun q hq => h q (List.mem_cons_of_mem _ hq)]
      by_cases hcond : o ≠ [] ∧ hasKey o "objectID" = true
      · rw [insRec_def, if_pos hcond]
        exact ersGet_ersSet_ne E0 (pyGet o "objectID") k o
          (Ne.symm (h o (List.mem_cons_self _ _) hcond.1 hcond.2))
      · rw [insRec_def, if_neg hcond]

/-- Folding `insRec` over a list whose element `o` is stored under key `k`
and is followed only by records not stored under `k` yields `o` at `k`:
the last write wins. -/
theorem ersGet_foldl_insRec_last (O1 O2 : List Record) (o : Record) (E0 : ERS) (k : JValue)
    (hne : o ≠ []) (hk : hasKey o "objectID" = true) (hid : pyGet o "objectID" = k)
    (h2 : ∀ q ∈ O2, q ≠ [] → hasKey q "objectID" = true → pyGet q "objectID" ≠ k) :
    ersGet? ((O1 ++ o :: O2).foldl insRec E0) k = some o := by
  rw [List.foldl_append, List.foldl_cons]
  rw [ersGet_foldl_insRec_of_none O2 _ k h2]
  rw [insRec_def, if_pos ⟨hne, hk⟩, hid]
  exact ersGet_ersSet_self _ k o

/-- Under a well-keyed existing set, the merge does not change the
`objectID` a record is seen under. -/
theorem pyGet_mergeOne (E : ERS) (q : Record)
    (hE : ∀ k r, ersGet? E k = some r → hasKey r "objectID" = true ∧ pyGet r "objectID" = k)
    (hnd : (q.map Prod.fst).Nodup) :
    pyGet (mergeOne E q) "objectID" = pyGet q "objectID" := by
  unfold mergeOne
  cases hers : ersGet? E (pyGet q "objectID") with
  | none => rfl
  | some e =>
      exact pyGet_mergeRecord e q "objectID" (pyGet q "objectID") hnd (hE _ _ hers).2 rfl

theorem pyGet_eq_null_of_not_hasKey (p : Record) (k : String)
    (h : hasKey p k = false) : pyGet p k = JValue.null := by
  unfold hasKey at h
  unfold pyGet
  cases hget : dictGet? p k with
  | none => rfl
  | some v =>
      rw [hget] at h
      cases h

/-! ### Parser lemmas -/

theorem parseKafkaAux_append (ts : Nat → String) (i : Nat) (l1 l2 : List Record) (acc : ERS) :
    parseKafkaAux ts i (l1 ++ l2) acc
      = parseKafkaAux ts (i + l1.length) l2 (parseKafkaAux ts i l1 acc) := by
  induction l1 generalizing i acc with
  | nil => simp [parseKafkaAux]
  | cons m tl ih =>
      by_cases h : hasKey m "objectID" = true
      · rw [List.cons_append]
        rw [show parseKafkaAux ts i (m :: (tl ++ l2)) acc
            = parseKafkaAux ts (i + 1) (tl ++ l2)
                (ersSet acc (pyGet m "objectID") (dictSet m "_kafka_processed_at" (.str (ts i))))
          from by simp [parseKafkaAux, h]]
        rw [show parseKafkaAux ts i (m :: tl) acc
            = parseKafkaAux ts (i + 1) tl
                (ersSet acc (pyGet m "objectID") (dictSet m "_kafka_processed_at" (.str (ts i))))
          from by simp [parseKafkaAux, h]]
        rw [ih]
        congr 1
        simp [List.length_cons]
        omega
      · rw [List.cons_append]
        rw [show parseKafkaAux ts i (m :: (tl ++ l2)) acc = parseKafkaAux ts (i + 1) (tl ++ l2) acc
          from by simp [parseKafkaAux, h]]
        rw [show parseKafkaAux ts i (m :: tl) acc = parseKafkaAux ts (i + 1) tl acc
          from by simp [parseKafkaAux, h]]
        rw [ih]
        congr 1
        simp [List.length_cons]
        omega

theorem ersGet_parseKafkaAux_of_none (ts : Nat → String) (i : Nat) (msgs : List Record)
    (acc : ERS) (k : JValue)
    (h : ∀ m ∈ msgs, ¬(hasKey m "objectID" = true ∧ pyGet m "objectID" = k)) :
    ersGet? (parseKafkaAux ts i msgs acc) k = ersGet? acc k := by
  induction msgs generalizing i acc with
  | nil => rfl
  | cons m tl ih =>
      by_cases hk : hasKey m "objectID" = true
      · have hne : pyGet m "objectID" ≠ k := by
          intro hh
          exact h m (List.mem_cons_self _ _) ⟨hk, hh⟩
        rw [show parseKafkaAux ts i (m :: tl) acc
            = parseKafkaAux ts (i + 1) tl
                (ersSet acc (pyGet m "objectID") (dictSet m "_kafka_processed_at" (.str (ts i))))
          from by simp [parseKafkaAux, hk]]
        rw [ih (i + 1) _ fun q hq => h q (List.mem_cons_of_mem _ hq)]
        exact ersGet_ersSet_ne acc (pyGet m "objectID") k _ (Ne.symm hne)
      · rw [show parseKafkaAux ts i (m :: tl) acc = parseKafkaAux ts (i + 1) tl acc
          from by simp [parseKafkaAux, hk]]
        exact ih (i + 1) _ fun q hq => h q (List.mem_cons_of_mem _ hq)

theorem parseKafkaAux_mem (ts : Nat → String) (i : Nat) (msgs : List Record) (acc : ERS)
    (hacc : ∀ kr ∈ acc, pyGet kr.2 "objectID" = kr.1 ∧ hasKey kr.2 "objectID" = true
      ∧ hasKey kr.2 "_kafka_processed_at" = true) :
    ∀ kr ∈ parseKafkaAux ts i msgs acc,
      pyGet kr.2 "objectID" = kr.1 ∧ hasKey kr.2 "objectID" = true
      ∧ hasKey kr.2 "_kafka_processed_at" = true := by
  induction msgs generalizing i acc with
  | nil => exact hacc
  | cons m tl ih =>
      by_cases hk : hasKey m "objectID" = true
      · rw [show parseKafkaAux ts i (m :: tl) acc
            = parseKafkaAux ts (i + 1) tl
                (ersSet acc (pyGet m "objectID") (dictSet m "_kafka_processed_at" (.str (ts i))))
          from by simp [parseKafkaAux, hk]]
        apply ih
        intro kr hkr
        rcases mem_ersSet acc _ _ kr hkr with h1 | h1
        · exact hacc kr h1
        · subst h1
          have hts : ("_kafka_processed_at" : String) ≠ "objectID" := by decide
          refine ⟨?_, ?_, ?_⟩
          · show pyGet (dictSet m "_kafka_processed_at" (.str (ts i))) "objectID"
              = pyGet m "objectID"
            unfold pyGet
            rw [dictGet_dictSet_ne m "_kafka_processed_at" "objectID" _ (Ne.symm hts)]
          · show hasKey (dictSet m "_kafka_processed_at" (.str (ts i))) "objectID" = true
            unfold hasKey
            rw [dictGet_dictSet_ne m "_kafka_processed_at" "objectID" _ (Ne.symm hts)]
            exact hk
          · show hasKey (dictSet m "_kafka_processed_at" (.str (ts i))) "_kafka_processed_at" = true
            unfold hasKey
            rw [dictGet_dictSet_self]
            rfl
      · rw [show parseKafkaAux ts i (m :: tl) acc = parseKafkaAux ts (i + 1) tl acc
          from by simp [parseKafkaAux, hk]]
        exact ih (i + 1) acc hacc

theorem parseKafkaAux_nodup (ts : Nat → String) (i : Nat) (msgs : List Record) (acc : ERS)
    (hacc : (ersKeys acc).Nodup) : (ersKeys (parseKafkaAux ts i msgs acc)).Nodup := by
  induction msgs generalizing i acc with
  | nil => exact hacc
  | cons m tl ih =>
      by_cases hk : hasKey m "objectID" = true
      · rw [show parseKafkaAux ts i (m :: tl) acc
            = parseKafkaAux ts (i + 1) tl
                (ersSet acc (pyGet m "objectID") (dictSet m "_kafka_processed_at" (.str (ts i))))
          from by simp [parseKafkaAux, hk]]
        exact ih (i + 1) _ (nodup_ersKeys_ersSet acc _ _ hacc)
      · rw [show parseKafkaAux ts i (m :: tl) acc = parseKafkaAux ts (i + 1) tl acc
          from by simp [parseKafkaAux, hk]]
        exact ih (i + 1) acc hacc

/-! ### Claim theorems -/

/-- C1: for every incoming record `r` and existing record `e` sharing an
identifier, every field `k` present in `e` with a non-null value (falsy
values such as `0`, `""` and `false` included) keeps the value `e[k]` in
the merged record, regardless of whether `r` contains `k` or what value
`r[k]` has. -/
theorem merge_no_overwrite (e r : Record) (k : String) (v : JValue)
    (hv : dictGet? e k = some v) (hnn : v ≠ JValue.null) :
    dictGet? (mergeRecord e r) k = some v :=
  foldl_mergeStep_preserves r e k v hv hnn

/-- Witness for C1 at a concrete input: the existing falsy price `0`
survives an incoming price `100`. -/
theorem merge_no_overwrite_witness :
    dictGet? (mergeRecord
      [("objectID", JValue.str "1"), ("price", JValue.num 0)]
      [("objectID", JValue.str "1"), ("price", JValue.num 100)]) "price"
    = some (JValue.num 0) :=
  merge_no_overwrite
    [("objectID", JValue.str "1"), ("price", JValue.num 0)]
    [("objectID", JValue.str "1"), ("price", JValue.num 100)]
    "price" (JValue.num 0) (by decide) (by decide)

/-- C3: a field that is absent from the existing record or stored there as
null, and present in the incoming record, takes the incoming value in the
merged record. -/
theorem merge_enrichment (e r : Record) (k : String) (v : JValue)
    (he : dictGet? e k = none ∨ dictGet? e k = some JValue.null)
    (hr : dictGet? r k = some v)
    (hnd : (r.map Prod.fst).Nodup) :
    dictGet? (mergeRecord e r) k = some v := by
  rw [dictGet_mergeRecord r e k hnd, if_pos he, hr]
  rfl

/-- Witness for C3 at a concrete input: a null rating in the catalog is
filled from the incoming record, and a brand-new field is added. -/
theorem merge_enrichment_witness :
    dictGet? (mergeRecord
      [("objectID", JValue.str "1"), ("rating", JValue.null)]
      [("objectID", JValue.str "1"), ("rating", JValue.num 4)]) "rating"
    = some (JValue.num 4) :=
  merge_enrichment
    [("objectID", JValue.str "1"), ("rating", JValue.null)]
    [("objectID", JValue.str "1"), ("rating", JValue.num 4)]
    "rating" (JValue.num 4) (by decide) (by decide) (by decide)

/-- C9: for the empty batch, `_upload_batch` returns before calling either
the lookup or the writer and leaves every statistics counter unchanged,
and the merge of the empty batch is empty. -/
theorem empty_batch_no_calls (lookup : LookupResult) (write : WriteResult)
    (stats : Stats) (existing : ERS) :
    uploadBatch lookup write stats [] = ⟨false, [], false, [], stats⟩
    ∧ mergeBatch existing [] = [] :=
  ⟨rfl, rfl⟩

/-- C4: an incoming record whose identifier is absent from the existing
record set is passed through the merge loop unchanged, field for field, at
its own position of the output. -/
theorem merge_new_passthrough (E : ERS) (ps : List Record) (i : Nat)
    (h1 : i < ps.length) (h2 : i < (mergeBatch E ps).length)
    (hmiss : ersGet? E (pyGet (ps.get ⟨i, h1⟩) "objectID") = none) :
    (mergeBatch E ps).get ⟨i, h2⟩ = ps.get ⟨i, h1⟩ := by
  have hmap : (mergeBatch E ps).get ⟨i, h2⟩ = mergeOne E (ps.get ⟨i, h1⟩) := by
    simp [mergeBatch, List.get_eq_getElem, List.getElem_map]
  rw [hmap]
  exact mergeOne_of_miss E _ hmiss

/-- Witness for C4 at a concrete input: id 999 misses the existing set and
the incoming record comes out exactly as it went in. -/
theorem merge_new_passthrough_witness :
    (mergeBatch [(JValue.str "1", [("objectID", JValue.str "1")])]
      [[("objectID", JValue.str "999"), ("name", JValue.str "New")]]).get ⟨0, by decide⟩
    = [("objectID", JValue.str "999"), ("name", JValue.str "New")] :=
  merge_new_passthrough [(JValue.str "1", [("objectID", JValue.str "1")])]
    [[("objectID", JValue.str "999"), ("name", JValue.str "New")]]
    0 (by decide) (by decide) (by decide)

theorem get_append_middle (l1 l2 : List Record) (r : Record)
    (h : l1.length < (l1 ++ r :: l2).length) :
    (l1 ++ r :: l2).get ⟨l1.length, h⟩ = r := by
  induction l1 with
  | nil => rfl
  | cons a tl ih =>
      have h2 : tl.length < (tl ++ r :: l2).length := by simp
      have h3 := ih h2
      rw [List.get_eq_getElem] at h3
      rw [List.get_eq_getElem]
      simpa using h3

/-- C5 (amended): inside one batch, every record — duplicate identifiers
included — is merged independently against the original existing record
set: the output at a record's position is a function of that record and
the existing set only, unaffected by the other records of the batch.  The
batch is not combined field-by-field; see the counterexample. -/
theorem merge_duplicates_independent (E : ERS) (ps1 ps2 : List Record) (r : Record)
    (h : ps1.length < (mergeBatch E (ps1 ++ r :: ps2)).length) :
    (mergeBatch E (ps1 ++ r :: ps2)).get ⟨ps1.length, h⟩ = mergeOne E r := by
  have hlen : ps1.length < (ps1 ++ r :: ps2).length := by
    rw [mergeBatch_length] at h
    exact h
  have hmap : (mergeBatch E (ps1 ++ r :: ps2)).get ⟨ps1.length, h⟩
      = mergeOne E ((ps1 ++ r :: ps2).get ⟨ps1.length, hlen⟩) := by
    simp only [mergeBatch, List.get_eq_getElem, List.getElem_map]
  rw [hmap, get_append_middle ps1 ps2 r hlen]

/-- Witness for C5's amended statement at a concrete input: the second of
two same-id records merges against the original existing record, not
against its sibling's output. -/
theorem merge_duplicates_independent_witness :
    (mergeBatch [(JValue.str "1", [("objectID", JValue.str "1"), ("x", JValue.num 9)])]
      [[("objectID", JValue.str "1"), ("a", JValue.num 1)],
       [("objectID", JValue.str "1"), ("b", JValue.num 2)]]).get ⟨1, by decide⟩
    = mergeOne [(JValue.str "1", [("objectID", JValue.str "1"), ("x", JValue.num 9)])]
        [("objectID", JValue.str "1"), ("b", JValue.num 2)] :=
  merge_duplicates_independent
    [(JValue.str "1", [("objectID", JValue.str "1"), ("x", JValue.num 9)])]
    [[("objectID", JValue.str "1"), ("a", JValue.num 1)]] []
    [("objectID", JValue.str "1"), ("b", JValue.num 2)] (by decide)

/-- C5 counterexample: with an existing record `{objectID:"1", x:9}` and a
batch holding `{objectID:"1", a:1}` then `{objectID:"1", b:2}`, the merge
produces two independent merges against the original existing record; the
second output does not contain the field `a` written by the first record,
so the batch is not merged with last-value-written-wins per field. -/
theorem merge_duplicates_counterexample :
    mergeBatch [(JValue.str "1", [("objectID", JValue.str "1"), ("x", JValue.num 9)])]
        [[("objectID", JValue.str "1"), ("a", JValue.num 1)],
         [("objectID", JValue.str "1"), ("b", JValue.num 2)]]
      = [mergeRecord [("objectID", JValue.str "1"), ("x", JValue.num 9)]
           [("objectID", JValue.str "1"), ("a", JValue.num 1)],
         mergeRecord [("objectID", JValue.str "1"), ("x", JValue.num 9)]
           [("objectID", JValue.str "1"), ("b", JValue.num 2)]]
    ∧ dictGet? (mergeRecord [("objectID", JValue.str "1"), ("x", JValue.num 9)]
        [("objectID", JValue.str "1"), ("b", JValue.num 2)]) "a" = none
    ∧ mergeRecord [("objectID", JValue.str "1"), ("x", JValue.num 9)]
        [("objectID", JValue.str "1"), ("b", JValue.num 2)]
      ≠ mergeRecord (mergeRecord [("objectID", JValue.str "1"), ("x", JValue.num 9)]
          [("objectID", JValue.str "1"), ("a", JValue.num 1)])
        [("objectID", JValue.str "1"), ("b", JValue.num 2)] := by
  decide

/-- C8 counterexample: for a batch holding the same identifier twice, a
second merge against the keyed output of the first merge changes the
output again — the first duplicate now merges against its sibling's
result — so merge is not idempotent on such batches. -/
theorem merge_idempotent_counterexample :
    mergeBatch (buildExisting (mergeBatch []
        [[("objectID", JValue.str "1"), ("a", JValue.num 1)],
         [("objectID", JValue.str "1"), ("b", JValue.num 2)]]))
      [[("objectID", JValue.str "1"), ("a", JValue.num 1)],
       [("objectID", JValue.str "1"), ("b", JValue.num 2)]]
    ≠ mergeBatch []
        [[("objectID", JValue.str "1"), ("a", JValue.num 1)],
         [("objectID", JValue.str "1"), ("b", JValue.num 2)]] := by
  decide

/-- C8 (amended): the merge is idempotent for every batch whose records
carry pairwise-distinct identifiers (as seen through `.get`, null standing
for both absent and explicit null), against any well-keyed existing set:
re-merging the batch against its own output, keyed the way
`existing_records` is built, reproduces the output unchanged.  Batches
that repeat an identifier escape this, see the counterexample. -/
theorem merge_idempotent (E : ERS) (B : List Record)
    (hE : ∀ k r, ersGet? E k = some r →
      hasKey r "objectID" = true ∧ pyGet r "objectID" = k)
    (hB : (B.map fun p => pyGet p "objectID").Nodup)
    (hN : ∀ p ∈ B, (p.map Prod.fst).Nodup) :
    mergeBatch (buildExisting (mergeBatch E B)) B = mergeBatch E B := by
  unfold mergeBatch
  apply List.map_congr_left
  intro a hp
  obtain ⟨B1, B2, rfl⟩ := List.append_of_mem hp
  have hNa : (a.map Prod.fst).Nodup := hN a hp
  have hmapsplit : (List.map (fun p => pyGet p "objectID") B1
      ++ pyGet a "objectID" :: List.map (fun p => pyGet p "objectID") B2).Nodup := by
    simpa using hB
  obtain ⟨-, hn2, hdisj⟩ := List.nodup_append.mp hmapsplit
  have hid2 : ∀ q ∈ B2, pyGet q "objectID" ≠ pyGet a "objectID" := by
    intro q hq heq
    have hmem : pyGet a "objectID" ∈ List.map (fun p => pyGet p "objectID") B2 := by
      rw [← heq]
      exact List.mem_map_of_mem _ hq
    exact (List.nodup_cons.mp hn2).1 hmem
  have hid1 : ∀ q ∈ B1, pyGet q "objectID" ≠ pyGet a "objectID" := by
    intro q hq heq
    have hmem : pyGet q "objectID" ∈ List.map (fun p => pyGet p "objectID") B1 :=
      List.mem_map_of_mem _ hq
    exact hdisj hmem (by rw [heq]; exact List.mem_cons_self _ _)
  have hcond1 : ∀ o ∈ List.map (mergeOne E) B1, o ≠ [] → hasKey o "objectID" = true →
      pyGet o "objectID" ≠ pyGet a "objectID" := by
    intro o ho h1 h2
    obtain ⟨q, hq, rfl⟩ := List.mem_map.mp ho
    rw [pyGet_mergeOne E q hE (hN q (List.mem_append_left _ hq))]
    exact hid1 q hq
  have hcond2 : ∀ o ∈ List.map (mergeOne E) B2, o ≠ [] → hasKey o "objectID" = true →
      pyGet o "objectID" ≠ pyGet a "objectID" := by
    intro o ho h1 h2
    obtain ⟨q, hq, rfl⟩ := List.mem_map.mp ho
    rw [pyGet_mergeOne E q hE
      (hN q (List.mem_append_right _ (List.mem_cons_of_mem _ hq)))]
    exact hid2 q hq
  cases hers : ersGet? E (pyGet a "objectID") with
  | none =>
      have hone : mergeOne E a = a := mergeOne_of_miss E a hers
      by_cases hkey : hasKey a "objectID" = true
      · have hpne : a ≠ [] := hasKey_ne_nil a _ hkey
        have hE2 : ersGet? (buildExisting (List.map (mergeOne E) (B1 ++ a :: B2)))
            (pyGet a "objectID") = some a := by
          unfold buildExisting
          rw [List.map_append, List.map_cons, hone]
          exact ersGet_foldl_insRec_last _ _ a [] _ hpne hkey rfl hcond2
        rw [mergeOne_of_hit _ a a hE2, mergeOne_of_miss E a hers, mergeRecord_self a hNa]
      · have hE2 : ersGet? (buildExisting (List.map (mergeOne E) (B1 ++ a :: B2)))
            (pyGet a "objectID") = none := by
          unfold buildExisting
          rw [List.map_append, List.map_cons, hone]
          have hall : ∀ o ∈ List.map (mergeOne E) B1 ++ a :: List.map (mergeOne E) B2,
              o ≠ [] → hasKey o "objectID" = true →
              pyGet o "objectID" ≠ pyGet a "objectID" := by
            intro o ho h1 h2
            rcases List.mem_append.mp ho with hmem | hmem
            · exact hcond1 o hmem h1 h2
            · rcases List.mem_cons.mp hmem with hmem2 | hmem2
              · subst hmem2
                exact absurd h2 hkey
              · exact hcond2 o hmem2 h1 h2
          rw [ersGet_foldl_insRec_of_none _ [] _ hall]
          rfl
        rw [mergeOne_of_miss _ a hE2, mergeOne_of_miss E a hers]
  | some e =>
      have he := hE _ _ hers
      have hone : mergeOne E a = mergeRecord e a := by
        unfold mergeOne
        rw [hers]
      have hkeym : hasKey (mergeRecord e a) "objectID" = true :=
        hasKey_mergeRecord e a _ hNa he.1
      have hnem : mergeRecord e a ≠ [] := hasKey_ne_nil _ _ hkeym
      have hidm : pyGet (mergeRecord e a) "objectID" = pyGet a "objectID" :=
        pyGet_mergeRecord e a _ _ hNa he.2 rfl
      have hE2 : ersGet? (buildExisting (List.map (mergeOne E) (B1 ++ a :: B2)))
          (pyGet a "objectID") = some (mergeRecord e a) := by
        unfold buildExisting
        rw [List.map_append, List.map_cons, hone]
        exact ersGet_foldl_insRec_last _ _ _ [] _ hnem hkeym hidm hcond2
      rw [mergeOne_of_hit _ a _ hE2, mergeOne_of_hit E a e hers, mergeRecord_idem e a hNa]

/-- Witness for C8's amended statement at a concrete input: a two-record
batch with distinct ids re-merges to the same output. -/
theorem merge_idempotent_witness :
    mergeBatch (buildExisting (mergeBatch []
        [[("objectID", JValue.str "1"), ("a", JValue.num 1)],
         [("objectID", JValue.str "2")]]))
      [[("objectID", JValue.str "1"), ("a", JValue.num 1)],
       [("objectID", JValue.str "2")]]
    = mergeBatch []
        [[("objectID", JValue.str "1"), ("a", JValue.num 1)],
         [("objectID", JValue.str "2")]] :=
  merge_idempotent []
    [[("objectID", JValue.str "1"), ("a", JValue.num 1)],
     [("objectID", JValue.str "2")]]
    (fun k r h => nomatch h) (by decide) (by decide)

/-- On a non-empty batch with at least one identifier, `_upload_batch`
calls the lookup with the filtered identifier list, calls the writer with
the merge output, and updates the statistics according to the write
outcome. -/
theorem uploadBatch_eq (lookup : LookupResult) (write : WriteResult) (stats : Stats)
    (products : List Record) (hne : products ≠ [])
    (hids : ((products.filter fun p => hasKey p "objectID").map fun p => pyGet p "objectID")
      ≠ []) :
    uploadBatch lookup write stats products
      = match write with
        | .ok => ⟨true,
            (products.filter fun p => hasKey p "objectID").map fun p => pyGet p "objectID",
            true, mergeBatch (existingOf lookup) products,
            { stats with productsUpdated :=
                stats.productsUpdated + (mergeBatch (existingOf lookup) products).length }⟩
        | .err => ⟨true,
            (products.filter fun p => hasKey p "objectID").map fun p => pyGet p "objectID",
            true, mergeBatch (existingOf lookup) products,
            { stats with errors := stats.errors + 1 }⟩ := by
  have hmne : mergeBatch (existingOf lookup) products ≠ [] := by
    intro hnil
    apply hne
    have hl := mergeBatch_length (existingOf lookup) products
    rw [hnil] at hl
    exact List.eq_nil_of_length_eq_zero hl.symm
  cases write with
  | ok =>
      simp only [uploadBatch]
      rw [if_neg hne, if_neg hids, if_neg hmne]
  | err =>
      simp only [uploadBatch]
      rw [if_neg hne, if_neg hids, if_neg hmne]

/-- C2 counterexample: in a batch pairing one record that has an
`objectID` with one record that lacks it, the id-less record is passed to
the writer (as a "new" record), contradicting the claim that it never
appears in the writer's input. -/
theorem missing_id_written_counterexample :
    [("name", JValue.str "B")]
      ∈ (uploadBatch (.ok []) .ok ⟨0, 0, 0⟩
          [[("objectID", JValue.str "1"), ("name", JValue.str "A")],
           [("name", JValue.str "B")]]).writerInput
    ∧ hasKey [("name", JValue.str "B")] "objectID" = false := by
  decide

/-- C2 (amended): a record lacking `objectID` contributes nothing to the
identifier list passed to the lookup; but it is not excluded before merge:
whenever some record of the batch has an `objectID` (otherwise the whole
batch is skipped) and the fetched existing set has no record keyed by
null, every id-less record passes through the merge and appears in the
writer's input. -/
theorem missing_id_filtered_only_from_lookup (lookup : LookupResult) (write : WriteResult)
    (stats : Stats) (products : List Record)
    (hsome : ∃ q ∈ products, hasKey q "objectID" = true) :
    (uploadBatch lookup write stats products).lookupIds
        = ((products.filter fun p => hasKey p "objectID").map fun p => pyGet p "objectID")
    ∧ (∀ p ∈ products, hasKey p "objectID" = false →
        ersGet? (existingOf lookup) JValue.null = none →
        p ∈ (uploadBatch lookup write stats products).writerInput) := by
  obtain ⟨q, hq, hkq⟩ := hsome
  have hne : products ≠ [] := List.ne_nil_of_mem hq
  have hids : ((products.filter fun p => hasKey p "objectID").map fun p => pyGet p "objectID")
      ≠ [] :=
    List.ne_nil_of_mem (List.mem_map_of_mem _ (List.mem_filter.mpr ⟨hq, hkq⟩))
  rw [uploadBatch_eq lookup write stats products hne hids]
  constructor
  · cases write <;> rfl
  · intro p hp hkey hnull
    have hone : mergeOne (existingOf lookup) p = p := by
      apply mergeOne_of_miss
      rw [pyGet_eq_null_of_not_hasKey p _ hkey]
      exact hnull
    have hmem : p ∈ mergeBatch (existingOf lookup) products := by
      unfold mergeBatch
      exact List.mem_map.mpr ⟨p, hp, hone⟩
    cases write <;> exact hmem

/-- Witness for C2's amended statement at a concrete input: the id-less
record of the counterexample batch is in the writer's input. -/
theorem missing_id_filtered_only_from_lookup_witness :
    [("name", JValue.str "B")]
      ∈ (uploadBatch (.ok []) .ok ⟨0, 0, 0⟩
          [[("objectID", JValue.str "1"), ("name", JValue.str "A")],
           [("name", JValue.str "B")]]).writerInput :=
  (missing_id_filtered_only_from_lookup (.ok []) .ok ⟨0, 0, 0⟩
      [[("objectID", JValue.str "1"), ("name", JValue.str "A")],
       [("name", JValue.str "B")]]
      ⟨[("objectID", JValue.str "1"), ("name", JValue.str "A")], by decide, by decide⟩).2
    [("name", JValue.str "B")] (by decide) (by decide) (by decide)

/-- C6: when the writer (upsert or the wait for confirmation) raises, the
batch error counter is incremented by exactly one, the records-written
counter is unchanged for that batch, and the run continues with the next
batch rather than aborting. -/
theorem write_error_counted (lookup : LookupResult) (stats : Stats)
    (products : List Record) (rest : List BatchInput)
    (hcall : (uploadBatch lookup .err stats products).writerCalled = true) :
    (uploadBatch lookup .err stats products).stats.errors = stats.errors + 1
    ∧ (uploadBatch lookup .err stats products).stats.productsUpdated
        = stats.productsUpdated
    ∧ runBatches ({ products := products, lookup := lookup, write := .err } :: rest) stats
        = runBatches rest (uploadBatch lookup .err stats products).stats := by
  have h3 : runBatches ({ products := products, lookup := lookup, write := .err } :: rest)
      stats = runBatches rest (uploadBatch lookup .err stats products).stats := rfl
  by_cases hne : products = []
  · exfalso
    subst hne
    simp [uploadBatch] at hcall
  by_cases hids :
      ((products.filter fun p => hasKey p "objectID").map fun p => pyGet p "objectID") = []
  · exfalso
    simp only [uploadBatch] at hcall
    rw [if_neg hne, if_pos hids] at hcall
    simp at hcall
  refine ⟨?_, ?_, h3⟩ <;>
    rw [uploadBatch_eq lookup .err stats products hne hids]

/-- Witness for C6 at a concrete input: a one-record batch whose write
fails bumps the error counter from 0 to 1. -/
theorem write_error_counted_witness :
    (uploadBatch (.ok []) .err ⟨0, 0, 0⟩ [[("objectID", JValue.str "1")]]).stats.errors
      = 1 :=
  (write_error_counted (.ok []) ⟨0, 0, 0⟩ [[("objectID", JValue.str "1")]] []
    (by decide)).1

/-- C7: when the lookup call fails, the batch is still processed with an
empty existing-record set — every record passes through the merge as new
and reaches the writer — and the statistics are exactly those of a
successful lookup that found nothing, so the lookup failure itself never
touches the batch error counter. -/
theorem lookup_error_soft (stats : Stats) (products : List Record) (write : WriteResult)
    (hsome : ∃ q ∈ products, hasKey q "objectID" = true) :
    (uploadBatch .err write stats products).writerCalled = true
    ∧ (uploadBatch .err write stats products).writerInput = products
    ∧ (uploadBatch .err write stats products).stats
        = (uploadBatch (.ok []) write stats products).stats := by
  obtain ⟨q, hq, hkq⟩ := hsome
  have hne : products ≠ [] := List.ne_nil_of_mem hq
  have hids : ((products.filter fun p => hasKey p "objectID").map fun p => pyGet p "objectID")
      ≠ [] :=
    List.ne_nil_of_mem (List.mem_map_of_mem _ (List.mem_filter.mpr ⟨hq, hkq⟩))
  have hmb : mergeBatch (existingOf .err) products = products :=
    mergeBatch_nil_existing products
  rw [uploadBatch_eq .err write stats products hne hids,
    uploadBatch_eq (.ok []) write stats products hne hids]
  cases write with
  | ok => exact ⟨rfl, hmb, rfl⟩
  | err => exact ⟨rfl, hmb, rfl⟩

/-- Witness for C7 at a concrete input: with a failing lookup, the
one-record batch reaches the writer verbatim. -/
theorem lookup_error_soft_witness :
    (uploadBatch .err .ok ⟨0, 0, 0⟩ [[("objectID", JValue.str "1")]]).writerInput
      = [[("objectID", JValue.str "1")]] :=
  (lookup_error_soft ⟨0, 0, 0⟩ [[("objectID", JValue.str "1")]] .ok
    ⟨[("objectID", JValue.str "1")], by decide, by decide⟩).2.1

/-- C10: the demo-mode parser returns a mapping keyed by `objectID` whose
stored records carry their key as `objectID` and a `_kafka_processed_at`
stamp; records never repeat an identifier (so a demo batch is
duplicate-free); messages lacking `objectID` are omitted (every stored
record has the key); and when several messages share an `objectID`, the
mapping holds the stamped copy of the last such message in file order. -/
theorem parse_kafka_demo_batch (ts : Nat → String) (msgs : List Record) :
    ((parseKafkaMessages ts msgs).map fun kr => pyGet kr.2 "objectID").Nodup
    ∧ (∀ kr ∈ parseKafkaMessages ts msgs,
        pyGet kr.2 "objectID" = kr.1 ∧ hasKey kr.2 "objectID" = true
        ∧ hasKey kr.2 "_kafka_processed_at" = true)
    ∧ (∀ pre m suf, msgs = pre ++ m :: suf → hasKey m "objectID" = true →
        (∀ q ∈ suf, ¬(hasKey q "objectID" = true ∧ pyGet q "objectID" = pyGet m "objectID")) →
        ersGet? (parseKafkaMessages ts msgs) (pyGet m "objectID")
          = some (dictSet m "_kafka_processed_at" (JValue.str (ts pre.length)))) := by
  have hmem : ∀ kr ∈ parseKafkaMessages ts msgs,
      pyGet kr.2 "objectID" = kr.1 ∧ hasKey kr.2 "objectID" = true
      ∧ hasKey kr.2 "_kafka_processed_at" = true :=
    parseKafkaAux_mem ts 0 msgs [] (by intro kr hkr; cases hkr)
  refine ⟨?_, hmem, ?_⟩
  · have hkeys : (ersKeys (parseKafkaMessages ts msgs)).Nodup :=
      parseKafkaAux_nodup ts 0 msgs [] (by simp [ersKeys])
    have hcongr : ((parseKafkaMessages ts msgs).map fun kr => pyGet kr.2 "objectID")
        = (parseKafkaMessages ts msgs).map Prod.fst :=
      List.map_congr_left fun kr hkr => (hmem kr hkr).1
    rw [hcongr]
    exact hkeys
  · intro pre m suf hsplit hkey hlast
    subst hsplit
    unfold parseKafkaMessages
    rw [parseKafkaAux_append ts 0 pre (m :: suf) []]
    rw [show parseKafkaAux ts (0 + pre.length) (m :: suf) (parseKafkaAux ts 0 pre [])
        = parseKafkaAux ts (0 + pre.length + 1) suf
            (ersSet (parseKafkaAux ts 0 pre []) (pyGet m "objectID")
              (dictSet m "_kafka_processed_at" (.str (ts (0 + pre.length)))))
      from by simp [parseKafkaAux, hkey]]
    rw [ersGet_parseKafkaAux_of_none ts _ suf _ _ hlast]
    rw [ersGet_ersSet_self, Nat.zero_add]

/-- Witness for C10 at a concrete input: with two messages sharing
`objectID` "1", the parser keeps the stamped copy of the second one. -/
theorem parse_kafka_demo_batch_witness :
    ersGet? (parseKafkaMessages (fun _ => "T")
        [[("objectID", JValue.str "1"), ("a", JValue.num 1)],
         [("objectID", JValue.str "1"), ("b", JValue.num 2)]])
      (JValue.str "1")
    = some (dictSet [("objectID", JValue.str "1"), ("b", JValue.num 2)]
        "_kafka_processed_at" (JValue.str "T")) :=
  (parse_kafka_demo_batch (fun _ => "T")
      [[("objectID", JValue.str "1"), ("a", JValue.num 1)],
       [("objectID", JValue.str "1"), ("b", JValue.num 2)]]).2.2
    [[("objectID", JValue.str "1"), ("a", JValue.num 1)]]
    [("objectID", JValue.str "1"), ("b", JValue.num 2)] []
    rfl (by decide) (by decide)

end KafkaAlgolia
